import Mathlib

/-
  Verification development for `src/assert/_diff.ts` (sequence/text diff).

  Strings are modelled as `List Char`, JavaScript arrays as `List`,
  JavaScript `===` on sequence elements as decidable equality, and the
  `Uint32Array` search buffer as a `List Nat` whose stores wrap modulo 2^32.
  Console output (`console.log`) and the dead debug helpers (`debug`,
  `debugV`, `debugV2`, `printTable`) have no effect on any return value and
  are not modelled; the `trace` array of `diffSequence` is likewise
  write-only debug state and is omitted from the search-loop state.
-/

namespace AssertDiff

/-- The `DiffType` enum of the source: `removed`, `common`, `added`. -/
inductive DiffType : Type where
  | removed : DiffType
  | common : DiffType
  | added : DiffType
deriving DecidableEq

/-- `DiffResult<T>`: a tag, a value, and the optional nested word-level
`details` list (present on text-mode line entries only). -/
inductive DiffResult (α : Type) : Type where
  | mk : DiffType → α → Option (List (DiffResult α)) → DiffResult α

def DiffResult.type {α : Type} : DiffResult α → DiffType
  | .mk t _ _ => t

def DiffResult.value {α : Type} : DiffResult α → α
  | .mk _ v _ => v

def DiffResult.details {α : Type} : DiffResult α → Option (List (DiffResult α))
  | .mk _ _ d => d

variable {α : Type} [DecidableEq α]

/-- The `commonPrefix` array built by the first loop of `diffSequence`
(lines 157-164): one `common` entry per position from the start while
`a[start] === b[start]`; the loop stops at the first mismatch or when the
shorter sequence is exhausted (`start < minLen`). -/
def prefixKept : List α → List α → List (DiffResult α)
  | x :: xs, y :: ys =>
      if x = y then DiffResult.mk DiffType.common x none :: prefixKept xs ys else []
  | _, _ => []

/-- The suffix loop of `diffSequence` (lines 166-175), phrased over the
reversed sequences: `a[aLen - i]` is element `i - 1` of `a.reverse`.  The
loop runs `i = 1 .. endLimit` and stops at the first mismatch. -/
def suffixKeptGo : List α → List α → Nat → List (DiffResult α)
  | x :: xs, y :: ys, lim + 1 =>
      if x = y then DiffResult.mk DiffType.common x none :: suffixKeptGo xs ys lim else []
  | _, _, _ => []

/-- The `commonSuffix` array of `diffSequence` (bounded by `endLimit`). -/
def suffixKept (a b : List α) (endLimit : Nat) : List (DiffResult α) :=
  suffixKeptGo a.reverse b.reverse endLimit

/-- JavaScript `===` over possibly-missing elements (an out-of-range index
on an array reads `undefined`; `undefined === undefined` is `true` and
`undefined === x` is `false` for a present `x`). -/
def jsEq : Option α → Option α → Bool
  | some x, some y => decide (x = y)
  | none, none => true
  | _, _ => false

/-- Element read `l[i]` with a possibly negative index, JavaScript style. -/
def igetOpt (l : List α) (i : Int) : Option α :=
  if i < 0 then none else l.get? i.toNat

/-- Read `v[i]` from the `Uint32Array` search buffer.  Every read executed
by the search stays inside the allocated `2 * max + 1` range (`k` ranges over
`[-d, d]` and `d < max`), so the out-of-range default is never consulted. -/
def uget (v : List Nat) (i : Int) : Nat :=
  if i < 0 then 0 else (v.get? i.toNat).getD 0

/-- Store `v[i] = x` on the `Uint32Array` buffer: the stored value wraps
modulo 2^32; an out-of-range store is ignored (as on a typed array). -/
def uset (v : List Nat) (i : Int) (x : Nat) : List Nat :=
  if i < 0 then v else v.set i.toNat (x % 4294967296)

/-- The diagonal advance of `diffSequence` (lines 227-231): starting from
`(x, y)`, advance while `x < n && y < m && a[x + start] === b[y + start]`. -/
def snakeRun (a b : List α) (start n : Nat) (m : Int) (x : Nat) (y : Int) :
    Nat × Int :=
  if h : x < n ∧ y < m ∧
      jsEq (igetOpt a ((x : Int) + (start : Int))) (igetOpt b (y + (start : Int))) then
    snakeRun a b start n m (x + 1) (y + 1)
  else
    (x, y)
termination_by n - x
decreasing_by
  obtain ⟨h1, -, -⟩ := h
  omega

/-- The inner diagonal loop of `diffSequence` (lines 215-240):
`for (let k = k0; k < kB; k += 2)`.  Returns the updated buffer and whether
`break search` fired (`x >= n && y >= m`). -/
def kLoop (a b : List α) (start n m : Nat) (d : Nat) (mx : Nat) (kB : Int)
    (k : Int) (v : List Nat) : List Nat × Bool :=
  if hk : k < kB then
    let x0 : Nat :=
      if k = -(d : Int) ∨
          (k ≠ (d : Int) ∧ uget v (k - 1 + (mx : Int)) < uget v (k + 1 + (mx : Int))) then
        uget v (k + 1 + (mx : Int))
      else
        uget v ((mx : Int) + (k - 1)) + 1
    let xy := snakeRun a b start n (m : Int) x0 ((x0 : Int) - k)
    let v2 := uset v (k + (mx : Int)) xy.1
    if n ≤ xy.1 ∧ (m : Int) ≤ xy.2 then (v2, true)
    else kLoop a b start n m d mx kB (k + 2) v2
  else
    (v, false)
termination_by (kB - k).toNat
decreasing_by
  omega

/-- The depth loop of `diffSequence` (lines 207-241):
`search: for (let d = 0; d < max; d++)`, with the band bounds
`mMax = d - m > 0 ? d - m : 0` and `nMax = d - n > 0 ? d - n : 0`.  The
`trace` pushes are write-only debug state and are not part of the loop
state here.  The loop runs at most `mx = n + m` depths. -/
def dLoop (a b : List α) (start n m mx : Nat) (d : Nat) (v : List Nat) :
    List Nat :=
  if hd : d < mx then
    let mMax : Nat := if m < d then d - m else 0
    let nMax : Nat := if n < d then d - n else 0
    let k0 : Int := -((d : Int) - 2 * (mMax : Int))
    let kB : Int := (d : Int) - 2 * (nMax : Int) + 1
    let r := kLoop a b start n m d mx kB k0 v
    if r.2 then r.1 else dLoop a b start n m mx (d + 1) r.1
  else
    v
termination_by mx - d
decreasing_by
  omega

/-- `diffSequence` (lines 144-255): the unfinished experimental variant.
It short-circuits when both inputs are empty, computes the common prefix
and suffix (building `commonPrefix`/`commonSuffix` arrays that are never
used afterwards), returns `[]` when prefix plus suffix cover the shorter
sequence, and otherwise runs the Myers forward search purely for its side
effects on `v`/`trace` before returning `[]` (line 254): no edit script is
ever reconstructed. -/
def diffSequence (a b : List α) : List (DiffResult α) :=
  let aLen := a.length
  let bLen := b.length
  if aLen = 0 ∧ bLen = 0 then []
  else
    let commonPrefix := prefixKept a b
    let minLen := if bLen < aLen then bLen else aLen
    let start := commonPrefix.length
    let endLimit := minLen - start
    let commonSuffix := suffixKept a b endLimit
    let e := commonSuffix.length
    if start + e = minLen then []
    else
      let n := aLen - start - e
      let m := bLen - start - e
      let mx := m + n
      let v0 : List Nat := List.replicate (2 * mx + 1) 0
      let _ := dLoop a b start n m mx 0 v0
      []

/-- The public `diff` (lines 302-304): its first statement is
`return diffSequence(A, B)`, so the classic implementation that follows the
`return` (lines 305-491) is unreachable dead code and is not part of the
reachable semantics. -/
def diff (A B : List α) : List (DiffResult α) :=
  diffSequence A B

/-- The engine of `diffSequence` run directly on the untrimmed sequences:
identical to `diffSequence` with the common-affix trimming step omitted
(`start = 0`, no suffix removed), used to compare trimmed and untrimmed
behaviour for the affix-trimming-soundness property. -/
def diffSequenceUntrimmed (a b : List α) : List (DiffResult α) :=
  let n := a.length
  let m := b.length
  let mx := m + n
  let v0 : List Nat := List.replicate (2 * mx + 1) 0
  let _ := dLoop a b 0 n m mx 0 v0
  []

/-- Length of the longest common prefix of two sequences (used to state
that two sequences share a nonempty common affix). -/
def commonPrefixLen : List α → List α → Nat
  | x :: xs, y :: ys => if x = y then commonPrefixLen xs ys + 1 else 0
  | _, _ => 0

/-- Applying an edit script on the A side, as the round-trip property
words it: drop `Removed` entries, insert the values of `Inserted` (added)
entries, keep the values of `Kept` (common) entries, in order.  The result
should be the sequence B. -/
def applyScriptToA (s : List (DiffResult α)) : List α :=
  s.filterMap (fun r => if r.type = DiffType.removed then none else some r.value)

/-- The inverse application on the B side: drop `Inserted` (added) entries,
insert the values of `Removed` entries, keep `Kept` values.  The result
should be the sequence A. -/
def applyScriptToB (s : List (DiffResult α)) : List α :=
  s.filterMap (fun r => if r.type = DiffType.added then none else some r.value)

/-- Number of non-`Kept` (non-`common`) entries of a script: the claimed
edit distance of the script. -/
def nonKeptCount (s : List (DiffResult α)) : Nat :=
  (s.filter (fun r => decide (r.type ≠ DiffType.common))).length

/-- `string.replaceAll(c, r)` for a single-character literal pattern `c`
and a fixed replacement `r`. -/
def replAll (c : Char) (r : List Char) : List Char → List Char
  | [] => []
  | x :: xs => (if x = c then r else [x]) ++ replAll c r xs

/-- The four control-character passes of `unescape` in `diffstr`
(lines 504-507), applied in source order: backspace, form feed, tab,
vertical tab, each replaced by its visible two-character sequence. -/
def escapeControls (s : List Char) : List Char :=
  replAll '\x0b' ['\\', 'v']
    (replAll '\t' ['\\', 't']
      (replAll '\x0c' ['\\', 'f']
        (replAll '\x08' ['\\', 'b'] s)))

/-- The final pass of `unescape` (lines 508-511):
`replaceAll(/\r\n|\r|\n/g, ...)` scanning left to right, replacing `\r\n`
by `\\r\\n\r\n`, bare `\r` by `\\r`, and `\n` by `\\n\n`. -/
def unescapeBreaks : List Char → List Char
  | [] => []
  | '\r' :: '\n' :: rest =>
      '\\' :: 'r' :: '\\' :: 'n' :: '\r' :: '\n' :: unescapeBreaks rest
  | '\r' :: rest => '\\' :: 'r' :: unescapeBreaks rest
  | '\n' :: rest => '\\' :: 'n' :: '\n' :: unescapeBreaks rest
  | c :: rest => c :: unescapeBreaks rest

/-- `unescape` of `diffstr` (lines 500-512). -/
def unescape (s : List Char) : List Char :=
  unescapeBreaks (escapeControls s)

/-- `string.split(/(\n|\r\n)/)` of line-mode `tokenize` (line 536): the
regex alternation matches `\n` at a `\n`, matches `\r\n` at a `\r`
followed by `\n`, and does not match a bare `\r`; the separator is kept
as its own piece (the capture group).  `acc` holds the pending segment in
reverse. -/
def splitLinesGo (acc : List Char) : List Char → List (List Char)
  | [] => [acc.reverse]
  | '\n' :: rest => acc.reverse :: ['\n'] :: splitLinesGo [] rest
  | '\r' :: '\n' :: rest => acc.reverse :: ['\r', '\n'] :: splitLinesGo [] rest
  | c :: rest => splitLinesGo (c :: acc) rest

def splitLines (s : List Char) : List (List Char) :=
  splitLinesGo [] s

/-- `if (!lines[lines.length - 1]) lines.pop()` (lines 539-541): drop a
final empty piece (only an empty string is falsy here). -/
def dropTrailingEmpty (l : List (List Char)) : List (List Char) :=
  match l.getLast? with
  | some [] => l.dropLast
  | _ => l

/-- The merge loop of line-mode `tokenize` (lines 544-550): pieces
alternate content (even index, pushed) and separator (odd index, appended
to the previous token), which is pairwise concatenation. -/
def mergePieces : List (List Char) → List (List Char)
  | x :: y :: rest => (x ++ y) :: mergePieces rest
  | l => l

/-- The JavaScript `\s` character class (used by `[^\S\r\n]` and by the
`/\s+/` test in `createDetails`). -/
def jsWhitespaceB (c : Char) : Bool :=
  c.toNat = 9 || c.toNat = 10 || c.toNat = 11 || c.toNat = 12 ||
  c.toNat = 13 || c.toNat = 32 || c.toNat = 160 || c.toNat = 5760 ||
  (8192 ≤ c.toNat && c.toNat ≤ 8202) || c.toNat = 8232 || c.toNat = 8233 ||
  c.toNat = 8239 || c.toNat = 8287 || c.toNat = 12288 || c.toNat = 65279

/-- `[^\S\r\n]`: whitespace other than `\r` and `\n`. -/
def wsNoNL (c : Char) : Bool :=
  jsWhitespaceB c && !(c == '\r') && !(c == '\n')

/-- The regex word class `\w` (`[A-Za-z0-9_]`), as used by `\b`. -/
def isWordCharB (c : Char) : Bool :=
  (65 ≤ c.toNat && c.toNat ≤ 90) || (97 ≤ c.toNat && c.toNat ≤ 122) ||
  (48 ≤ c.toNat && c.toNat ≤ 57) || c.toNat = 95

/-- The bracket/quote/line-break class of the word-mode split regex:
`( ) [ ] { } ' " \r \n` (given by code point). -/
def jsBracketB (c : Char) : Bool :=
  [40, 41, 91, 93, 123, 125, 39, 34, 13, 10].contains c.toNat

/-- The Extended-Latin `words` regex of word-mode `tokenize`
(lines 519-520): `a-z`, `A-Z`, `U+00C0`-`U+00FF`, `U+00D8`-`U+00F6`,
`U+00F8`-`U+02C6`, `U+02C8`-`U+02D7`, `U+02DE`-`U+02FF`,
`U+1E00`-`U+1EFF`. -/
def wordsCharB (c : Char) : Bool :=
  (65 ≤ c.toNat && c.toNat ≤ 90) || (97 ≤ c.toNat && c.toNat ≤ 122) ||
  (192 ≤ c.toNat && c.toNat ≤ 255) || (216 ≤ c.toNat && c.toNat ≤ 246) ||
  (248 ≤ c.toNat && c.toNat ≤ 710) || (712 ≤ c.toNat && c.toNat ≤ 727) ||
  (734 ≤ c.toNat && c.toNat ≤ 767) || (7680 ≤ c.toNat && c.toNat ≤ 7935)

/-- `words.test(token)`: the regex is anchored (`^...+$`), so it requires a
nonempty token all of whose characters are in the class. -/
def wordsTestB (t : List Char) : Bool :=
  !t.isEmpty && t.all wordsCharB

/-- `string.split(/([^\S\r\n]+|[()[\]{}'"\r\n]|\b)/)` of word-mode
`tokenize` (line 517), following the ECMAScript split algorithm: at each
position the alternatives are tried in order (a maximal non-newline
whitespace run, a single bracket/quote/newline character, a zero-width
word boundary); a zero-width match is effective only when the pending
segment `acc` is nonempty (an empty match at the previous match end is
skipped), in which case the segment and an empty capture are emitted.
`prev` is the character preceding the scan position in the original
string (`none` at the start). -/
def splitWordGo (acc : List Char) (prev : Option Char) :
    List Char → List (List Char)
  | [] => [acc.reverse]
  | c :: rest =>
    if wsNoNL c then
      let run := c :: rest.takeWhile wsNoNL
      acc.reverse :: run :: splitWordGo [] (some (run.getLastD c)) (rest.dropWhile wsNoNL)
    else if jsBracketB c then
      acc.reverse :: [c] :: splitWordGo [] (some c) rest
    else if acc ≠ [] ∧
        ((match prev with | none => false | some p => isWordCharB p) ≠ isWordCharB c) then
      acc.reverse :: [] :: splitWordGo [c] (some c) rest
    else
      splitWordGo (c :: acc) (some c) rest
termination_by l => l.length
decreasing_by
  · simp only [List.length_cons]
    exact Nat.lt_succ_of_le (List.dropWhile_sublist _).length_le
  · simp
  · simp
  · simp

def splitWord (s : List Char) : List (List Char) :=
  splitWordGo [] none s

/-- The boundary-rejoin loop of word-mode `tokenize` (lines 523-532): an
empty boundary token surrounded by two `words`-class tokens is removed and
its neighbours concatenated; after a merge the loop re-examines the same
position (`i--` then `i++`), after a non-merge it advances. -/
def mergeWT : List (List Char) → List (List Char)
  | t :: u :: w :: rest =>
      if u = [] ∧ w ≠ [] ∧ wordsTestB t ∧ wordsTestB w then
        mergeWT ((t ++ w) :: rest)
      else
        t :: mergeWT (u :: w :: rest)
  | l => l
termination_by l => l.length

/-- `tokenize` of `diffstr` (lines 514-553): word mode splits, rejoins
over-eager boundary splits, and drops empty tokens; line mode splits on
`\n`/`\r\n`, drops a final empty piece, and merges each separator into the
preceding content token. -/
def tokenize (s : List Char) (wordDiff : Bool) : List (List Char) :=
  if wordDiff then
    (mergeWT (splitWord s)).filter (fun t => !t.isEmpty)
  else
    mergePieces (dropTrailingEmpty (splitLines s))

/-- The filter step of `createDetails` (lines 561-563): keep only entries
whose type is the line's type or `common`. -/
def filteredTokens (line : DiffResult (List Char))
    (tokens : List (DiffResult (List Char))) : List (DiffResult (List Char)) :=
  tokens.filter (fun r =>
    decide (r.type = line.type) || decide (r.type = DiffType.common))

/-- `/\s+/.test(value)`: the regex is unanchored, so it tests whether the
value contains at least one whitespace character. -/
def hasWhitespace (v : List Char) : Bool :=
  v.any jsWhitespaceB

/-- The body of the `map` callback of `createDetails` (lines 563-574): a
`common` entry whose left neighbour exists, whose two neighbours in the
filtered list have the same type, and whose value contains whitespace is
re-tagged to the left neighbour's type (the spread keeps value and
details); everything else is returned unchanged.  `t[i - 1]` for `i = 0`
is `undefined` (modelled by `none`). -/
def retagAt (t : List (DiffResult (List Char))) (i : Nat)
    (r : DiffResult (List Char)) : DiffResult (List Char) :=
  match r.type, (if i = 0 then none else t.get? (i - 1)), t.get? (i + 1) with
  | DiffType.common, some p, some q =>
      if p.type = q.type ∧ hasWhitespace r.value then
        DiffResult.mk p.type r.value r.details
      else r
  | _, _, _ => r

/-- `Array.prototype.map` with index and array arguments, as used by
`createDetails`: element `i` of the result is the callback applied to
element `i` of `t`.  The fuel starts at `t.length`, so the `none` guard is
never taken. -/
def cdGo (t : List (DiffResult (List Char))) : Nat → Nat → List (DiffResult (List Char))
  | 0, _ => []
  | fuel + 1, i =>
    match t.get? i with
    | none => []
    | some r => retagAt t i r :: cdGo t fuel (i + 1)

/-- `createDetails` of `diffstr` (lines 557-575). -/
def createDetails (line : DiffResult (List Char))
    (tokens : List (DiffResult (List Char))) : List (DiffResult (List Char)) :=
  let t := filteredTokens line tokens
  cdGo t t.length 0

/-- A string free of `\r` and `\n` (line-terminator-free). -/
def noBreakB (l : List Char) : Bool :=
  l.all (fun c => !(c == '\r') && !(c == '\n'))

/-! ### Helper lemmas about the sequence engine -/

/-- Every return path of `diffSequence` returns the empty list: the
empty-input short circuit (line 151), the affix-cover short circuit
(line 181), and the fall-through after the search loop (line 254). -/
lemma diffSequence_eq_nil (a b : List α) : diffSequence a b = [] := by
  unfold diffSequence
  dsimp only
  split
  · rfl
  · split <;> split <;> rfl

lemma diffSequenceUntrimmed_eq_nil (a b : List α) :
    diffSequenceUntrimmed a b = [] := rfl

end AssertDiff

namespace AssertDiff

variable {α : Type} [DecidableEq α]

/-! ### Claim theorems for the sequence engine -/

/-- Claim C1 (code bug exhibited): the round-trip property fails on the
code.  At `A = [1]`, `B = [2]` the public `diff` (via `diffSequence`)
returns the empty script, and applying that script to A (drop `Removed`,
insert `Inserted` values, keep `Kept` values) yields `[]`, not `B`;
the inverse application likewise fails to recover `A`. -/
theorem c1_roundtrip_fails_on_code :
    diff ([1] : List Nat) [2] = [] ∧
    applyScriptToA (diff ([1] : List Nat) [2]) ≠ [2] ∧
    applyScriptToB (diff ([1] : List Nat) [2]) ≠ [1] :=
  ⟨rfl, by decide, by decide⟩

/-- Claim C2 (confirmed): the public `diff` returns exactly
`diffSequence(A, B)` (the classic implementation after the `return`
statement is unreachable), and `diffSequence` returns the empty list for
every pair of inputs — in particular for every pair whose trimmed cores
still differ — without reconstructing any edit script. -/
theorem c2_diff_is_dead_and_empty (a b : List α) :
    diff a b = diffSequence a b ∧ diffSequence a b = [] :=
  ⟨rfl, diffSequence_eq_nil a b⟩

theorem c2_witness :
    diff ([0, 1] : List Nat) [0, 2] = diffSequence [0, 1] [0, 2] ∧
    diffSequence ([0, 1] : List Nat) [0, 2] = [] :=
  c2_diff_is_dead_and_empty [0, 1] [0, 2]

/-- Claim C3 (code bug exhibited): `diffSequence(A, A)` does not return an
all-`Kept` script of length `|A|`.  At `A = [1]` the prefix loop consumes
the whole input, the affix-cover short circuit fires and returns `[]`
(discarding the `commonPrefix` entries it just built) instead of the
single `Kept` entry the claim requires. -/
theorem c3_identity_fails_on_code :
    diffSequence ([1] : List Nat) [1] = [] ∧
    diffSequence ([1] : List Nat) [1] ≠ [DiffResult.mk DiffType.common 1 none] := by
  refine ⟨rfl, ?_⟩
  simp [diffSequence_eq_nil]

/-- Claim C4 (code bug exhibited): `diffSequence([], [])` is indeed `[]`,
but `diffSequence([], [1,2])` and `diffSequence([1,2], [])` also return
`[]` (the affix-cover short circuit fires because `minLen = 0`), not the
two `Inserted` (`added`) respectively `Removed` entries the claim
requires. -/
theorem c4_empty_inputs_fail_on_code :
    diffSequence ([] : List Nat) [] = [] ∧
    diffSequence ([] : List Nat) [1, 2] = [] ∧
    diffSequence ([1, 2] : List Nat) [] = [] ∧
    diffSequence ([] : List Nat) [1, 2] ≠
      [DiffResult.mk DiffType.added 1 none, DiffResult.mk DiffType.added 2 none] ∧
    diffSequence ([1, 2] : List Nat) [] ≠
      [DiffResult.mk DiffType.removed 1 none, DiffResult.mk DiffType.removed 2 none] := by
  refine ⟨rfl, rfl, rfl, ?_, ?_⟩ <;> simp [diffSequence_eq_nil]

/-- Claim C5 (code bug exhibited): on the spec's own hand-checkable case
`A = [a,b,c]`, `B = [a,x,c]` the engine returns the empty script, whose
number of non-`Kept` entries is `0`, not the true edit distance `2`. -/
theorem c5_minimality_fails_on_code :
    diffSequence ['a', 'b', 'c'] ['a', 'x', 'c'] = [] ∧
    nonKeptCount (diffSequence ['a', 'b', 'c'] ['a', 'x', 'c']) = 0 ∧
    nonKeptCount (diffSequence ['a', 'b', 'c'] ['a', 'x', 'c']) ≠ 2 := by
  refine ⟨rfl, rfl, ?_⟩
  rw [diffSequence_eq_nil]
  decide

/-- Claim C6 (confirmed, degenerately): for sequences sharing a nonempty
common prefix or suffix, the script produced with the common-affix
trimming step equals the script produced by running the engine directly
on the untrimmed inputs.  This holds because the engine returns the empty
script on every input, so trimming cannot change the output. -/
theorem c6_trimming_preserves_output (a b : List α)
    (_h : 0 < commonPrefixLen a b ∨ 0 < commonPrefixLen a.reverse b.reverse) :
    diffSequence a b = diffSequenceUntrimmed a b := by
  rw [diffSequence_eq_nil, diffSequenceUntrimmed_eq_nil]

theorem c6_witness :
    (0 < commonPrefixLen ([1, 2] : List Nat) [1, 3] ∨
      0 < commonPrefixLen ([1, 2] : List Nat).reverse ([1, 3] : List Nat).reverse) ∧
    diffSequence ([1, 2] : List Nat) [1, 3] = diffSequenceUntrimmed [1, 2] [1, 3] :=
  ⟨Or.inl (by decide),
    c6_trimming_preserves_output [1, 2] [1, 3] (Or.inl (by decide))⟩

/-- Claim C9 (confirmed): the engine and the tokenizer are total — every
definition here is a terminating function, so each application has a
value — and the depth loop of the search is bounded by `mx = n + m`: at
any depth `d ≥ mx` the loop exits immediately. -/
theorem c9_totality (a b : List α) (s : List Char) :
    (∃ r, diffSequence a b = r) ∧
    (∃ t1, tokenize s false = t1) ∧
    (∃ t2, tokenize s true = t2) ∧
    (∀ start n m mx d v, mx ≤ d → dLoop a b start n m mx d v = v) := by
  refine ⟨⟨_, rfl⟩, ⟨_, rfl⟩, ⟨_, rfl⟩, ?_⟩
  intro start n m mx d v hd
  unfold dLoop
  rw [dif_neg (by omega)]

theorem c9_witness :
    (2 : Nat) ≤ 2 ∧ dLoop ([1] : List Nat) [2] 0 1 1 2 2 [] = [] :=
  ⟨by decide, (c9_totality ([1] : List Nat) [2] ['a']).2.2.2 0 1 1 2 2 [] (by decide)⟩

/-! ### Helper lemmas about escaping and line-mode tokenization -/

lemma noBreakB_cons {c : Char} {w : List Char} (h : noBreakB (c :: w) = true) :
    c ≠ '\r' ∧ c ≠ '\n' ∧ noBreakB w = true := by
  simp only [noBreakB, List.all_cons, Bool.and_eq_true, Bool.not_eq_true',
    beq_eq_false_iff_ne] at h ⊢
  exact ⟨h.1.1, h.1.2, h.2⟩

lemma replAll_append (c : Char) (r : List Char) (u v : List Char) :
    replAll c r (u ++ v) = replAll c r u ++ replAll c r v := by
  induction u with
  | nil => rfl
  | cons x xs ih => simp [replAll, ih]

lemma escapeControls_append (u v : List Char) :
    escapeControls (u ++ v) = escapeControls u ++ escapeControls v := by
  simp [escapeControls, replAll_append]

lemma replAll_noBreak {c : Char} {r u : List Char} (hr : noBreakB r = true)
    (hu : noBreakB u = true) : noBreakB (replAll c r u) = true := by
  induction u with
  | nil => rfl
  | cons x xs ih =>
    obtain ⟨h1, h2, h3⟩ := noBreakB_cons hu
    simp only [replAll, noBreakB, List.all_append] at *
    refine Bool.and_eq_true_iff.mpr ⟨?_, ih h3⟩
    split
    · exact hr
    · simp [h1, h2]

lemma escapeControls_noBreak {u : List Char} (hu : noBreakB u = true) :
    noBreakB (escapeControls u) = true := by
  unfold escapeControls
  exact replAll_noBreak (by decide)
    (replAll_noBreak (by decide)
      (replAll_noBreak (by decide) (replAll_noBreak (by decide) hu)))

lemma replAll_ne_nil {c : Char} {r u : List Char} (hr : r ≠ [])
    (hu : u ≠ []) : replAll c r u ≠ [] := by
  cases u with
  | nil => exact absurd rfl hu
  | cons x xs =>
    by_cases hxc : x = c <;> simp [replAll, hxc, hr]

lemma escapeControls_ne_nil {u : List Char} (hu : u ≠ []) :
    escapeControls u ≠ [] := by
  unfold escapeControls
  exact replAll_ne_nil (by decide)
    (replAll_ne_nil (by decide)
      (replAll_ne_nil (by decide) (replAll_ne_nil (by decide) hu)))

lemma unescapeBreaks_append {w : List Char} (hw : noBreakB w = true)
    (rest : List Char) :
    unescapeBreaks (w ++ rest) = w ++ unescapeBreaks rest := by
  induction w with
  | nil => rfl
  | cons c w' ih =>
    obtain ⟨h1, h2, h3⟩ := noBreakB_cons hw
    simp [unescapeBreaks, h1, h2, ih h3]

lemma unescapeBreaks_noBreak {w : List Char} (hw : noBreakB w = true) :
    unescapeBreaks w = w := by
  have h := unescapeBreaks_append hw []
  simpa [unescapeBreaks] using h

lemma unescape_eq_escapeControls {u : List Char} (hu : noBreakB u = true) :
    unescape u = escapeControls u := by
  unfold unescape
  exact unescapeBreaks_noBreak (escapeControls_noBreak hu)

lemma splitLinesGo_append {w : List Char} (hw : noBreakB w = true) :
    ∀ acc rest, splitLinesGo acc (w ++ rest) = splitLinesGo (w.reverse ++ acc) rest := by
  induction w with
  | nil => intro acc rest; simp
  | cons c w' ih =>
    intro acc rest
    obtain ⟨h1, h2, h3⟩ := noBreakB_cons hw
    have step : splitLinesGo acc (c :: (w' ++ rest)) = splitLinesGo (c :: acc) (w' ++ rest) := by
      simp [splitLinesGo, h1, h2]
    rw [List.cons_append, step, ih h3 (c :: acc) rest]
    simp

lemma splitLinesGo_noBreak {w : List Char} (hw : noBreakB w = true) (acc : List Char) :
    splitLinesGo acc w = [acc.reverse ++ w] := by
  have h := splitLinesGo_append hw acc []
  rw [List.append_nil] at h
  rw [h]
  show [(w.reverse ++ acc).reverse] = [acc.reverse ++ w]
  simp

lemma dropTrailingEmpty_of_ne {l : List (List Char)} {w : List Char}
    (h : l.getLast? = some w) (hw : w ≠ []) : dropTrailingEmpty l = l := by
  unfold dropTrailingEmpty
  rw [h]
  cases w with
  | nil => exact absurd rfl hw
  | cons c cs => rfl

lemma noBreakB_append {u v : List Char} (hu : noBreakB u = true)
    (hv : noBreakB v = true) : noBreakB (u ++ v) = true := by
  simp only [noBreakB, List.all_append, Bool.and_eq_true]
  exact ⟨hu, hv⟩

/-! ### Claim theorems for line-mode tokenization (diffstr) -/

/-- Claim C7 (counterexample): a bare carriage return does NOT produce a
line-token boundary.  On the input `"a\rb"`, `unescape` turns the bare
`\r` into the two visible characters `\r` without re-inserting an actual
line break, and line-mode `tokenize` (which splits only on `\n` and
`\r\n`) returns a single token, not two. -/
theorem c7_bare_cr_no_boundary :
    tokenize (unescape ['a', '\r', 'b']) false = [['a', '\\', 'r', 'b']] ∧
    (tokenize (unescape ['a', '\r', 'b']) false).length ≠ 2 :=
  ⟨rfl, by decide⟩

/-- Claim C7 (amended): in `diffstr`'s line-mode tokenization, the
terminators `\n` and `\r\n` are escaped to visible markers while an actual
line break is preserved, so each still produces a line-token boundary;
a bare `\r`, however, is escaped to the visible marker `\r` with no line
break preserved, and produces no boundary.  Stated for an arbitrary
terminator occurrence between terminator-free strings `u` and `v`
(`v` nonempty, so the final-empty-token rule does not interfere). -/
theorem c7_terminator_tokenization (u v : List Char)
    (hu : noBreakB u = true) (hv : noBreakB v = true) (hne : v ≠ []) :
    tokenize (unescape (u ++ '\n' :: v)) false =
      [unescape u ++ ['\\', 'n', '\n'], unescape v] ∧
    tokenize (unescape (u ++ '\r' :: '\n' :: v)) false =
      [unescape u ++ ['\\', 'r', '\\', 'n', '\r', '\n'], unescape v] ∧
    tokenize (unescape (u ++ '\r' :: v)) false =
      [unescape u ++ '\\' :: 'r' :: unescape v] := by
  have hEu : noBreakB (escapeControls u) = true := escapeControls_noBreak hu
  have hEv : noBreakB (escapeControls v) = true := escapeControls_noBreak hv
  have hEvne : escapeControls v ≠ [] := escapeControls_ne_nil hne
  have hUu : unescape u = escapeControls u := unescape_eq_escapeControls hu
  have hUv : unescape v = escapeControls v := unescape_eq_escapeControls hv
  refine ⟨?_, ?_, ?_⟩
  · -- `\n` case
    have e1 : escapeControls (u ++ '\n' :: v) =
        escapeControls u ++ '\n' :: escapeControls v := by
      have hsplit : u ++ '\n' :: v = u ++ ['\n'] ++ v := by simp
      rw [hsplit, escapeControls_append, escapeControls_append]
      have h2 : escapeControls ['\n'] = ['\n'] := rfl
      rw [h2]
      simp
    have e2 : unescape (u ++ '\n' :: v) =
        (escapeControls u ++ ['\\', 'n']) ++ '\n' :: escapeControls v := by
      unfold unescape
      rw [e1, unescapeBreaks_append hEu]
      have h3 : unescapeBreaks ('\n' :: escapeControls v) =
          '\\' :: 'n' :: '\n' :: unescapeBreaks (escapeControls v) := rfl
      rw [h3, unescapeBreaks_noBreak hEv]
      simp
    have hP : noBreakB (escapeControls u ++ ['\\', 'n']) = true :=
      noBreakB_append hEu (by decide)
    have e3 : splitLines (unescape (u ++ '\n' :: v)) =
        [escapeControls u ++ ['\\', 'n'], ['\n'], escapeControls v] := by
      rw [e2]
      unfold splitLines
      rw [splitLinesGo_append hP]
      have h4 : splitLinesGo ((escapeControls u ++ ['\\', 'n']).reverse ++ [])
            ('\n' :: escapeControls v) =
          ((escapeControls u ++ ['\\', 'n']).reverse ++ []).reverse ::
            ['\n'] :: splitLinesGo [] (escapeControls v) := rfl
      rw [h4, splitLinesGo_noBreak hEv]
      simp
    show mergePieces (dropTrailingEmpty (splitLines (unescape (u ++ '\n' :: v)))) = _
    have hlast : [escapeControls u ++ ['\\', 'n'], ['\n'],
        escapeControls v].getLast? = some (escapeControls v) := rfl
    rw [e3, dropTrailingEmpty_of_ne hlast hEvne]
    have h5 : mergePieces [escapeControls u ++ ['\\', 'n'], ['\n'], escapeControls v] =
        [(escapeControls u ++ ['\\', 'n']) ++ ['\n'], escapeControls v] := rfl
    rw [h5, hUu, hUv]
    simp
  · -- `\r\n` case
    have e1 : escapeControls (u ++ '\r' :: '\n' :: v) =
        escapeControls u ++ '\r' :: '\n' :: escapeControls v := by
      have hsplit : u ++ '\r' :: '\n' :: v = u ++ ['\r', '\n'] ++ v := by simp
      rw [hsplit, escapeControls_append, escapeControls_append]
      have h2 : escapeControls ['\r', '\n'] = ['\r', '\n'] := rfl
      rw [h2]
      simp
    have e2 : unescape (u ++ '\r' :: '\n' :: v) =
        (escapeControls u ++ ['\\', 'r', '\\', 'n']) ++ '\r' :: '\n' :: escapeControls v := by
      unfold unescape
      rw [e1, unescapeBreaks_append hEu]
      have h3 : unescapeBreaks ('\r' :: '\n' :: escapeControls v) =
          '\\' :: 'r' :: '\\' :: 'n' :: '\r' :: '\n' ::
            unescapeBreaks (escapeControls v) := rfl
      rw [h3, unescapeBreaks_noBreak hEv]
      simp
    have hP : noBreakB (escapeControls u ++ ['\\', 'r', '\\', 'n']) = true :=
      noBreakB_append hEu (by decide)
    have e3 : splitLines (unescape (u ++ '\r' :: '\n' :: v)) =
        [escapeControls u ++ ['\\', 'r', '\\', 'n'], ['\r', '\n'], escapeControls v] := by
      rw [e2]
      unfold splitLines
      rw [splitLinesGo_append hP]
      have h4 : splitLinesGo ((escapeControls u ++ ['\\', 'r', '\\', 'n']).reverse ++ [])
            ('\r' :: '\n' :: escapeControls v) =
          ((escapeControls u ++ ['\\', 'r', '\\', 'n']).reverse ++ []).reverse ::
            ['\r', '\n'] :: splitLinesGo [] (escapeControls v) := rfl
      rw [h4, splitLinesGo_noBreak hEv]
      simp
    show mergePieces (dropTrailingEmpty (splitLines (unescape (u ++ '\r' :: '\n' :: v)))) = _
    have hlast : [escapeControls u ++ ['\\', 'r', '\\', 'n'], ['\r', '\n'],
        escapeControls v].getLast? = some (escapeControls v) := rfl
    rw [e3, dropTrailingEmpty_of_ne hlast hEvne]
    have h5 : mergePieces
          [escapeControls u ++ ['\\', 'r', '\\', 'n'], ['\r', '\n'], escapeControls v] =
        [(escapeControls u ++ ['\\', 'r', '\\', 'n']) ++ ['\r', '\n'], escapeControls v] := rfl
    rw [h5, hUu, hUv]
    simp
  · -- bare `\r` case: no boundary
    have e1 : escapeControls (u ++ '\r' :: v) =
        escapeControls u ++ '\r' :: escapeControls v := by
      have hsplit : u ++ '\r' :: v = u ++ ['\r'] ++ v := by simp
      rw [hsplit, escapeControls_append, escapeControls_append]
      have h2 : escapeControls ['\r'] = ['\r'] := rfl
      rw [h2]
      simp
    have e2 : unescape (u ++ '\r' :: v) =
        escapeControls u ++ '\\' :: 'r' :: escapeControls v := by
      unfold unescape
      rw [e1, unescapeBreaks_append hEu]
      suffices h : unescapeBreaks ('\r' :: escapeControls v) =
          '\\' :: 'r' :: escapeControls v by rw [h]
      cases hEvc : escapeControls v with
      | nil => exact absurd hEvc hEvne
      | cons c tail =>
        obtain ⟨hc1, hc2, hc3⟩ := noBreakB_cons (hEvc ▸ hEv)
        have hstep : unescapeBreaks ('\r' :: c :: tail) =
            '\\' :: 'r' :: unescapeBreaks (c :: tail) := by
          simp [unescapeBreaks, hc2]
        rw [hstep, unescapeBreaks_noBreak (hEvc ▸ hEv)]
    have hW : noBreakB (escapeControls u ++ '\\' :: 'r' :: escapeControls v) = true := by
      have hform : ('\\' :: 'r' :: escapeControls v : List Char) =
          ['\\', 'r'] ++ escapeControls v := rfl
      rw [hform]
      exact noBreakB_append hEu (noBreakB_append (by decide) hEv)
    have e3 : splitLines (unescape (u ++ '\r' :: v)) =
        [escapeControls u ++ '\\' :: 'r' :: escapeControls v] := by
      rw [e2]
      unfold splitLines
      rw [splitLinesGo_noBreak hW]
      simp
    show mergePieces (dropTrailingEmpty (splitLines (unescape (u ++ '\r' :: v)))) = _
    rw [e3]
    have hne3 : escapeControls u ++ '\\' :: 'r' :: escapeControls v ≠ [] := by simp
    have hlast : [escapeControls u ++ '\\' :: 'r' :: escapeControls v].getLast? =
        some (escapeControls u ++ '\\' :: 'r' :: escapeControls v) := rfl
    rw [dropTrailingEmpty_of_ne hlast hne3]
    have h5 : mergePieces [escapeControls u ++ '\\' :: 'r' :: escapeControls v] =
        [escapeControls u ++ '\\' :: 'r' :: escapeControls v] := rfl
    rw [h5, hUu, hUv]

/-! ### Helper lemmas about createDetails -/

/-- Element `k` of the indexed map of `createDetails`: the callback applied
to element `j + k` of the filtered list. -/
lemma cdGo_get? (t : List (DiffResult (List Char))) :
    ∀ fuel j k r, t.get? (j + k) = some r → k < fuel →
      (cdGo t fuel j).get? k = some (retagAt t (j + k) r) := by
  intro fuel
  induction fuel with
  | zero => intro j k r _ hk; omega
  | succ n ih =>
    intro j k r hr hk
    cases h0 : t.get? j with
    | none =>
      have hlen : t.length ≤ j := List.get?_eq_none.mp h0
      have hnone : t.get? (j + k) = none := List.get?_eq_none.mpr (by omega)
      rw [hnone] at hr
      cases hr
    | some r0 =>
      have hstep : cdGo t (n + 1) j = retagAt t j r0 :: cdGo t n (j + 1) := by
        rw [cdGo, h0]
      rw [hstep]
      cases k with
      | zero =>
        have : r = r0 := by
          rw [Nat.add_zero] at hr
          rw [h0] at hr
          exact (Option.some.injEq _ _ ▸ hr).symm
        subst this
        simp
      | succ k' =>
        have hr' : t.get? ((j + 1) + k') = some r := by
          rw [show (j + 1) + k' = j + (k' + 1) by omega]
          exact hr
        have := ih (j + 1) k' r hr' (by omega)
        simpa [show j + (k' + 1) = (j + 1) + k' by omega] using this

/-- `createDetails` maps element `i` of the filtered token list through the
re-tagging callback, preserving positions. -/
lemma createDetails_get? (line : DiffResult (List Char))
    (tokens : List (DiffResult (List Char))) (i : Nat) (r : DiffResult (List Char))
    (hr : (filteredTokens line tokens).get? i = some r) :
    (createDetails line tokens).get? i =
      some (retagAt (filteredTokens line tokens) i r) := by
  have hi : i < (filteredTokens line tokens).length := by
    by_contra hcon
    rw [List.get?_eq_none.mpr (by omega)] at hr
    cases hr
  have := cdGo_get? (filteredTokens line tokens)
    (filteredTokens line tokens).length 0 i r (by simpa using hr) hi
  simpa [createDetails] using this

/-- The re-tag result's type is the type of some member of the filtered
list (either the entry itself or its left neighbour). -/
lemma retagAt_type_mem (t : List (DiffResult (List Char))) (i : Nat)
    (r : DiffResult (List Char)) (hr : t.get? i = some r) :
    ∃ y ∈ t, (retagAt t i r).type = y.type := by
  unfold retagAt
  split
  · next p q htype hprev hnext =>
    split
    · refine ⟨p, ?_, rfl⟩
      by_cases hi : i = 0
      · rw [if_pos hi] at hprev; cases hprev
      · rw [if_neg hi] at hprev
        exact List.get?_mem hprev
    · exact ⟨r, List.get?_mem hr, rfl⟩
  · exact ⟨r, List.get?_mem hr, rfl⟩

/-- Every member of the mapped list has the type of some member of `t`. -/
lemma cdGo_type_mem (t : List (DiffResult (List Char))) :
    ∀ fuel i x, x ∈ cdGo t fuel i → ∃ y ∈ t, x.type = y.type := by
  intro fuel
  induction fuel with
  | zero => intro i x hx; simp [cdGo] at hx
  | succ n ih =>
    intro i x hx
    cases h0 : t.get? i with
    | none =>
      rw [cdGo, h0] at hx
      cases hx
    | some r0 =>
      rw [cdGo, h0] at hx
      rcases List.mem_cons.mp hx with h | h
      · subst h
        exact retagAt_type_mem t i r0 h0
      · exact ih (i + 1) x h

/-! ### Claim theorems for createDetails (C8, C10) -/

/-- Claim C8 (counterexample): the whitespace test of `createDetails` is
the unanchored `/\s+/.test`, so a `Kept` token that merely CONTAINS
whitespace — here `"a b"`, which is not purely whitespace — is also
re-tagged when surrounded by same-kind neighbours, refuting "no other
Kept token is re-tagged". -/
theorem c8_nonwhitespace_kept_retagged :
    createDetails (DiffResult.mk DiffType.removed ['x'] none)
      [DiffResult.mk DiffType.removed ['f', 'o', 'o'] none,
       DiffResult.mk DiffType.common ['a', ' ', 'b'] none,
       DiffResult.mk DiffType.removed ['b', 'a', 'r'] none] =
      [DiffResult.mk DiffType.removed ['f', 'o', 'o'] none,
       DiffResult.mk DiffType.removed ['a', ' ', 'b'] none,
       DiffResult.mk DiffType.removed ['b', 'a', 'r'] none] ∧
    (['a', ' ', 'b'].all jsWhitespaceB) = false :=
  ⟨rfl, by decide⟩

/-- Claim C8 (amended): in the detail-merge step, a `Kept` token whose
value contains at least one whitespace character and whose immediate
neighbours on both sides in the filtered script exist and have the same
kind is re-tagged to that kind (a no-op when the neighbours are `Kept`);
a token that is not `Kept`, or whose value contains no whitespace, or
whose neighbours' kinds differ, is passed through unchanged; in
particular `[Removed "foo", Kept " ", Removed "bar"]` becomes
`[Removed "foo", Removed " ", Removed "bar"]`. -/
theorem c8_whitespace_merge (line : DiffResult (List Char))
    (tokens : List (DiffResult (List Char))) (i : Nat)
    (r p q : DiffResult (List Char))
    (hr : (filteredTokens line tokens).get? i = some r) :
    (r.type = DiffType.common → 1 ≤ i →
      (filteredTokens line tokens).get? (i - 1) = some p →
      (filteredTokens line tokens).get? (i + 1) = some q →
      p.type = q.type → hasWhitespace r.value = true →
      (createDetails line tokens).get? i =
        some (DiffResult.mk p.type r.value r.details)) ∧
    (r.type ≠ DiffType.common → (createDetails line tokens).get? i = some r) ∧
    (hasWhitespace r.value = false → (createDetails line tokens).get? i = some r) ∧
    ((filteredTokens line tokens).get? (i - 1) = some p →
      (filteredTokens line tokens).get? (i + 1) = some q →
      p.type ≠ q.type → (createDetails line tokens).get? i = some r) ∧
    createDetails (DiffResult.mk DiffType.removed ['x'] none)
      [DiffResult.mk DiffType.removed ['f', 'o', 'o'] none,
       DiffResult.mk DiffType.common [' '] none,
       DiffResult.mk DiffType.removed ['b', 'a', 'r'] none] =
      [DiffResult.mk DiffType.removed ['f', 'o', 'o'] none,
       DiffResult.mk DiffType.removed [' '] none,
       DiffResult.mk DiffType.removed ['b', 'a', 'r'] none] := by
  refine ⟨?_, ?_, ?_, ?_, rfl⟩
  · intro hc hi hp hq hpq hw
    rw [createDetails_get? _ _ _ _ hr]
    have hred : retagAt (filteredTokens line tokens) i r =
        DiffResult.mk p.type r.value r.details := by
      unfold retagAt
      rw [hc, if_neg (by omega : ¬ i = 0), hp, hq]
      simp [hpq, hw]
    rw [hred]
  · intro hc
    rw [createDetails_get? _ _ _ _ hr]
    have hred : retagAt (filteredTokens line tokens) i r = r := by
      unfold retagAt
      split
      · next p0 q0 htype hprev hnext => exact absurd htype hc
      · rfl
    rw [hred]
  · intro hwf
    rw [createDetails_get? _ _ _ _ hr]
    have hred : retagAt (filteredTokens line tokens) i r = r := by
      unfold retagAt
      split
      · next p0 q0 htype hprev hnext =>
        rw [if_neg]
        intro hcon
        rw [hwf] at hcon
        exact absurd hcon.2 (by simp)
      · rfl
    rw [hred]
  · intro hp hq hneq
    rw [createDetails_get? _ _ _ _ hr]
    have hred : retagAt (filteredTokens line tokens) i r = r := by
      unfold retagAt
      split
      · next p0 q0 htype hprev hnext =>
        have hi0 : ¬ i = 0 := by
          intro h0
          rw [if_pos h0] at hprev
          cases hprev
        rw [if_neg hi0] at hprev
        have hpp : p0 = p := by
          rw [hprev] at hp
          exact (Option.some.injEq _ _ ▸ hp)
        have hqq : q0 = q := by
          rw [hnext] at hq
          exact (Option.some.injEq _ _ ▸ hq)
        rw [if_neg]
        intro hcon
        exact hneq (hpp ▸ hqq ▸ hcon.1)
      · rfl
    rw [hred]

/-- Instantiation of the amended C8 statement at the spec's example
`[Removed "foo", Kept " ", Removed "bar"]` on a removed line. -/
theorem c8_witness :
    (filteredTokens (DiffResult.mk DiffType.removed ['x'] none)
        [DiffResult.mk DiffType.removed ['f', 'o', 'o'] none,
         DiffResult.mk DiffType.common [' '] none,
         DiffResult.mk DiffType.removed ['b', 'a', 'r'] none]).get? 1 =
      some (DiffResult.mk DiffType.common [' '] none) ∧
    hasWhitespace [' '] = true ∧
    (createDetails (DiffResult.mk DiffType.removed ['x'] none)
        [DiffResult.mk DiffType.removed ['f', 'o', 'o'] none,
         DiffResult.mk DiffType.common [' '] none,
         DiffResult.mk DiffType.removed ['b', 'a', 'r'] none]).get? 1 =
      some (DiffResult.mk DiffType.removed [' '] none) := by
  have h := (c8_whitespace_merge (DiffResult.mk DiffType.removed ['x'] none)
      [DiffResult.mk DiffType.removed ['f', 'o', 'o'] none,
       DiffResult.mk DiffType.common [' '] none,
       DiffResult.mk DiffType.removed ['b', 'a', 'r'] none] 1
      (DiffResult.mk DiffType.common [' '] none)
      (DiffResult.mk DiffType.removed ['f', 'o', 'o'] none)
      (DiffResult.mk DiffType.removed ['b', 'a', 'r'] none) rfl).1
    rfl (by omega) rfl rfl rfl rfl
  exact ⟨rfl, rfl, h⟩

/-- Claim C10 (confirmed): every detail entry that `createDetails`
produces — hence everything `diffstr` attaches as `details` to a changed
line — has the line's own kind or `common`: the filter keeps only those
kinds, and the re-tagging step only copies a type from the filtered
list. -/
theorem c10_details_type_invariant (line : DiffResult (List Char))
    (tokens : List (DiffResult (List Char))) (x : DiffResult (List Char))
    (hx : x ∈ createDetails line tokens) :
    x.type = line.type ∨ x.type = DiffType.common := by
  have hx' : x ∈ cdGo (filteredTokens line tokens)
      (filteredTokens line tokens).length 0 := by
    simpa [createDetails] using hx
  obtain ⟨y, hy, hxy⟩ := cdGo_type_mem _ _ _ _ hx'
  unfold filteredTokens at hy
  rw [List.mem_filter] at hy
  rw [hxy]
  simpa using hy.2

theorem c10_witness :
    DiffResult.mk DiffType.removed ['f'] none ∈
      createDetails (DiffResult.mk DiffType.removed ['x'] none)
        [DiffResult.mk DiffType.removed ['f'] none] ∧
    ((DiffResult.mk DiffType.removed ['f'] none : DiffResult (List Char)).type =
        (DiffResult.mk DiffType.removed ['x'] none : DiffResult (List Char)).type ∨
      (DiffResult.mk DiffType.removed ['f'] none : DiffResult (List Char)).type =
        DiffType.common) := by
  have hm : DiffResult.mk DiffType.removed ['f'] none ∈
      createDetails (DiffResult.mk DiffType.removed ['x'] none)
        [DiffResult.mk DiffType.removed ['f'] none] := by
    show DiffResult.mk DiffType.removed ['f'] none ∈
      ([DiffResult.mk DiffType.removed ['f'] none] : List (DiffResult (List Char)))
    exact List.mem_singleton.mpr rfl
  exact ⟨hm, c10_details_type_invariant _ _ _ hm⟩

/-- Instantiation of the amended C7 statement at `u = "a"`, `v = "b"`. -/
theorem c7_witness :
    noBreakB ['a'] = true ∧ noBreakB ['b'] = true ∧ (['b'] : List Char) ≠ [] ∧
    tokenize (unescape (['a'] ++ '\n' :: ['b'])) false =
      [unescape ['a'] ++ ['\\', 'n', '\n'], unescape ['b']] ∧
    tokenize (unescape (['a'] ++ '\r' :: '\n' :: ['b'])) false =
      [unescape ['a'] ++ ['\\', 'r', '\\', 'n', '\r', '\n'], unescape ['b']] ∧
    tokenize (unescape (['a'] ++ '\r' :: ['b'])) false =
      [unescape ['a'] ++ '\\' :: 'r' :: unescape ['b']] := by
  obtain ⟨h1, h2, h3⟩ :=
    c7_terminator_tokenization ['a'] ['b'] (by decide) (by decide) (by decide)
  exact ⟨by decide, by decide, by decide, h1, h2, h3⟩

end AssertDiff
